import Mathlib

/-!
Verification of `triangulation/MeteorApplyAstrometry.py`.

The Python module is a numeric pipeline: field/vignetting correction
(`applyFieldCorrection`), projection to altitude/azimuth (`XY2altAz`),
conversion to equatorial coordinates (`altAz2RADec`), magnitude estimation
(`calculateMagnitudes`), the orchestrator (`XY2CorrectedRADec`) and
cross-station point pairing (`findPointTimePairs`).

Floating-point arithmetic is modelled over the real numbers; the parallel
numpy arrays of the source become lists of per-point tuples (the source
itself stacks them into a row matrix before iterating).  The external
collaborator `date2JD` is passed as an explicit function argument.
The point pairing uses only ordered-field arithmetic, so it is embedded
generically over a `LinearOrderedField` and instantiated at `ℚ` for
concrete computations.
-/

/-! ### Cross-station point pairing (source lines 376-408)

A station point is a `(julian_date, ra, dec, magnitude)` tuple; the source
only reads `point[0]` (the time) and stores whole points. -/

/-- A station point: `(julian_date, ra, dec, magnitude)`. -/
abbrev Pt (α : Type) := α × α × α × α

/-- The inner loop of `findPointTimePairs` (source lines 392-399):
`for k, point2 in enumerate(station_obj2.points)`, keeping the running
`(min_index, min_diff)` state and updating it whenever the current time
difference is strictly smaller. `k` is the enumeration index of the head
of the remaining list. -/
def scanMinAux {α : Type} [LinearOrderedField α] (t1 : α) :
    List (Pt α) → ℕ → ℕ × α → ℕ × α
  | [], _, st => st
  | p :: rest, k, (mi, md) =>
    if |t1 - p.1| < md then scanMinAux t1 rest (k + 1) (k, |t1 - p.1|)
    else scanMinAux t1 rest (k + 1) (mi, md)

/-- Outer loop of `findPointTimePairs` (source lines 387-404): for each
point of station 1, seed `min_diff` from `station_obj2.points[min_index]`
(an out-of-range access, modelled by `none`, when that index is invalid),
rescan all of station 2, and append the pair when the minimal difference
is strictly below the threshold.  The seed index persists across
iterations exactly as the source's `min_index` variable does. -/
def findPairsAux {α : Type} [LinearOrderedField α] (pts2 : List (Pt α))
    (maxdt : α) : List (Pt α) → ℕ → Option (List (Pt α × Pt α))
  | [], _ => some []
  | p1 :: rest, mi =>
    match pts2[mi]? with
    | none => none
    | some pseed =>
      let res := scanMinAux p1.1 pts2 0 (mi, |p1.1 - pseed.1|)
      if res.2 < maxdt then
        match pts2[res.1]? with
        | none => none
        | some pmin =>
          (findPairsAux pts2 maxdt rest res.1).map (fun l => (p1, pmin) :: l)
      else findPairsAux pts2 maxdt rest res.1

/-- `findPointTimePairs(station_obj1, station_obj2, max_dt)` (source lines
376-408).  The threshold is converted from seconds to julian-date units by
`max_dt/60/60/24`; `min_index` starts at `0`. -/
def findPointTimePairs {α : Type} [LinearOrderedField α]
    (pts1 pts2 : List (Pt α)) (max_dt : α) : Option (List (Pt α × Pt α)) :=
  findPairsAux pts2 (max_dt / 60 / 60 / 24) pts1 0

/-- Running minimum of `|t1 - b.1|` over a list, seeded with `d`;
the value computed by the source's inner scan. -/
def minDiffFrom {α : Type} [LinearOrderedField α] (t1 : α)
    (pts : List (Pt α)) (d : α) : α :=
  pts.foldl (fun md p => min md |t1 - p.1|) d

/-- Global minimum absolute time difference from `t1` to a (nonempty) list
of station points; `0` by convention on the empty list. -/
def minTimeDiff {α : Type} [LinearOrderedField α] (t1 : α) :
    List (Pt α) → α
  | [] => 0
  | p :: rest => minDiffFrom t1 rest |t1 - p.1|

/-! ### Angle helpers

`math.radians`, `math.degrees`, Python's float `%` (whose result has the
sign of the divisor: `x - m*⌊x/m⌋`), and the two-argument arctangent
`math.atan2` with its usual quadrant conventions. -/

noncomputable section

/-- `math.radians`. -/
def radians (d : ℝ) : ℝ := d * Real.pi / 180

/-- `math.degrees`. -/
def degrees (r : ℝ) : ℝ := r * 180 / Real.pi

/-- Python's float modulo: `x % m = x - m*⌊x/m⌋` (sign of the divisor). -/
def pymod (x m : ℝ) : ℝ := x - m * ⌊x / m⌋

/-- `math.atan2 y x`: the angle of the point `(x, y)` in `(-π, π]`,
with `atan2 0 0 = 0`. -/
def atan2 (y x : ℝ) : ℝ :=
  if 0 < x then Real.arctan (y / x)
  else if x < 0 then
    (if 0 ≤ y then Real.arctan (y / x) + Real.pi
     else Real.arctan (y / x) - Real.pi)
  else if 0 < y then Real.pi / 2
  else if y < 0 then -(Real.pi / 2)
  else 0

/-! ### Distortion and vignetting corrector (source lines 38-122) -/

/-- Vignetting correction (source lines 76-78): in the CIF frame, if the
radius about `(192, 192)` exceeds `120`, scale the level by
`1 + 0.00245*(r - 120)`. -/
def vignettingCorrection (Xdet Ydet level : ℝ) : ℝ :=
  if Real.sqrt ((Xdet - 192) ^ 2 + (Ydet - 192) ^ 2) > 120 then
    level * (1 + 0.00245 * (Real.sqrt ((Xdet - 192) ^ 2 + (Ydet - 192) ^ 2) - 120))
  else level

/-- Body of the `applyFieldCorrection` loop (source lines 70-120) for one
`(X, Y, level)` row.  `X_res/2` and `Y_res/2` are Python 2 integer
divisions (the resolutions are ints), hence `Int.fdiv`; `X_res/384.0` is a
float division. -/
def correctPoint (x_poly y_poly : List ℝ) (X_res Y_res : ℤ) (F_scale : ℝ)
    (q : ℝ × ℝ × ℝ) : ℝ × ℝ × ℝ :=
  let X_scale : ℝ := (X_res : ℝ) / 384
  let Y_scale : ℝ := (Y_res : ℝ) / 288
  let Xdet : ℝ := (q.1 - ((X_res.fdiv 2 : ℤ) : ℝ)) / X_scale
  let Ydet : ℝ := (q.2.1 - ((Y_res.fdiv 2 : ℤ) : ℝ)) / Y_scale
  let level : ℝ := vignettingCorrection Xdet Ydet q.2.2
  let rad : ℝ := Real.sqrt (Xdet ^ 2 + Ydet ^ 2)
  let X_pix : ℝ :=
    (Xdet
      + x_poly.getD 0 0
      + x_poly.getD 1 0 * Xdet
      + x_poly.getD 2 0 * Ydet
      + x_poly.getD 3 0 * Xdet ^ 2
      + x_poly.getD 4 0 * Xdet * Ydet
      + x_poly.getD 5 0 * Ydet ^ 2
      + x_poly.getD 6 0 * Xdet ^ 3
      + x_poly.getD 7 0 * Xdet ^ 2 * Ydet
      + x_poly.getD 8 0 * Xdet * Ydet ^ 2
      + x_poly.getD 9 0 * Ydet ^ 3
      + x_poly.getD 10 0 * Xdet * rad
      + x_poly.getD 11 0 * Ydet * rad)
  let Y_pix : ℝ :=
    (Ydet
      + y_poly.getD 0 0
      + y_poly.getD 1 0 * Xdet
      + y_poly.getD 2 0 * Ydet
      + y_poly.getD 3 0 * Xdet ^ 2
      + y_poly.getD 4 0 * Xdet * Ydet
      + y_poly.getD 5 0 * Ydet ^ 2
      + y_poly.getD 6 0 * Xdet ^ 3
      + y_poly.getD 7 0 * Xdet ^ 2 * Ydet
      + y_poly.getD 8 0 * Xdet * Ydet ^ 2
      + y_poly.getD 9 0 * Ydet ^ 3
      + y_poly.getD 10 0 * Ydet * rad
      + y_poly.getD 11 0 * Xdet * rad)
  (X_pix / F_scale, Y_pix / F_scale, level)

/-- `applyFieldCorrection` (source lines 38-122) on the row matrix of
`(X, Y, level)` triples. -/
def applyFieldCorrection (x_poly y_poly : List ℝ) (X_res Y_res : ℤ)
    (F_scale : ℝ) (pts : List (ℝ × ℝ × ℝ)) : List (ℝ × ℝ × ℝ) :=
  pts.map (correctPoint x_poly y_poly X_res Y_res F_scale)

/-! ### Sky projector (source lines 126-193) -/

/-- Body of the `XY2altAz` loop (source lines 158-191) for one
`(X_pix, Y_pix)` pair, returning `(azimuth, altitude)` in degrees.
Python's `%` binds tighter than `-`, so line 169 is
`RA_d - (degrees(atan2 ...) % 360)`. -/
def xy2altAzPoint (lat lon RA_d dec_d Ho rot_param : ℝ) (q : ℝ × ℝ) : ℝ × ℝ :=
  let dec_rad := radians dec_d
  let sl := Real.sin (radians lon)
  let cl := Real.cos (radians lon)
  let radius := radians (Real.sqrt (q.1 ^ 2 + q.2 ^ 2))
  let theta := radians (pymod (90 - rot_param + degrees (atan2 q.2 q.1)) 360)
  let sin_t := Real.sin dec_rad * Real.cos radius +
    Real.cos dec_rad * Real.sin radius * Real.cos theta
  let Dec0det := atan2 sin_t (Real.sqrt (1 - sin_t ^ 2))
  let sin_t2 := Real.sin theta * Real.sin radius / Real.cos Dec0det
  let cos_t2 := (Real.cos radius - Real.sin Dec0det * Real.sin dec_rad) /
    (Real.cos Dec0det * Real.cos dec_rad)
  let RA0det := RA_d - pymod (degrees (atan2 sin_t2 cos_t2)) 360
  let h' := radians (Ho + lat - RA0det)
  let x := -(Real.cos h') * Real.cos Dec0det * sl + Real.sin Dec0det * cl
  let y := -(Real.sin h') * Real.cos Dec0det
  let z := Real.cos h' * Real.cos Dec0det * cl + Real.sin Dec0det * sl
  let r := Real.sqrt (x ^ 2 + y ^ 2)
  (pymod (degrees (atan2 y x)) 360, degrees (atan2 z r))

/-- `XY2altAz` (source lines 126-193). -/
def XY2altAz (lat lon RA_d dec_d Ho rot_param : ℝ) (pts : List (ℝ × ℝ)) :
    List (ℝ × ℝ) :=
  pts.map (xy2altAzPoint lat lon RA_d dec_d Ho rot_param)

/-! ### Equatorial converter (source lines 197-261) -/

/-- A calendar timestamp `(year, month, day, hour, minute, second,
millisecond)`; only the external `date2JD` collaborator inspects it. -/
structure TimeTuple where
  year : ℝ
  month : ℝ
  day : ℝ
  hour : ℝ
  minute : ℝ
  second : ℝ
  millisecond : ℝ

/-- Body of the `altAz2RADec` loop (source lines 228-259) for one
timestamped `(azimuth, altitude)` pair, returning `(JD, RA, dec)`.
`date2JD` is the external julian-date collaborator, taking the timestamp
and `UT_corr`. -/
def altAz2RADecPoint (date2JD : TimeTuple → ℝ → ℝ) (lat lon UT_corr : ℝ)
    (q : TimeTuple × ℝ × ℝ) : ℝ × ℝ × ℝ :=
  let sl := Real.sin (radians lon)
  let cl := Real.cos (radians lon)
  let az_rad := radians q.2.1
  let alt_rad := radians q.2.2
  let saz := Real.sin az_rad
  let salt := Real.sin alt_rad
  let caz := Real.cos az_rad
  let calt := Real.cos alt_rad
  let x := -saz * calt
  let y := -caz * sl * calt + salt * cl
  let HA := degrees (atan2 x y)
  let JD := date2JD q.1 UT_corr
  let T := (JD - 2451545.0) / 36525.0
  let Ho := pymod (280.46061837 + 360.98564736629 * (JD - 2451545.0) +
    0.000387933 * T ^ 2 - T ^ 3 / 38710000.0) 360
  (JD, pymod (Ho + lat - HA) 360,
    degrees (Real.arcsin (sl * salt + cl * calt * caz)))

/-- `altAz2RADec` (source lines 197-261): pairs each timestamp with the
corresponding `(azimuth, altitude)` sample. -/
def altAz2RADec (date2JD : TimeTuple → ℝ → ℝ) (lat lon UT_corr : ℝ)
    (time_data : List TimeTuple) (azalt : List (ℝ × ℝ)) :
    List (ℝ × ℝ × ℝ) :=
  (time_data.zip azalt).map (altAz2RADecPoint date2JD lat lon UT_corr)

/-! ### Magnitude estimator (source lines 265-312) -/

/-- `calculateMagnitudes` (source lines 265-312): spherical-law-of-cosines
track length, `angular_v = length/duration`, then the piecewise
level-to-magnitude law with the angular-velocity correction. -/
def calculateMagnitudes (level_data : List ℝ)
    (ra_beg ra_end dec_beg dec_end duration mag_0 mag_lev w_pix : ℝ) :
    List ℝ :=
  let rb := radians ra_beg
  let re2 := radians ra_end
  let db := radians dec_beg
  let de2 := radians dec_end
  let tlen := degrees (Real.arccos (Real.sin db * Real.sin de2 +
    Real.cos db * Real.cos de2 * Real.cos (rb - re2)))
  let angular_v := tlen / duration
  level_data.map (fun level =>
    let magnitude :=
      if Real.logb 10 level ≤ 3.2 then mag_0 * Real.logb 10 level + mag_lev
      else -20 * Real.logb 10 level + 64.5
    if angular_v > w_pix then
      magnitude - 2.5 * Real.logb 10 (angular_v / w_pix)
    else magnitude)

/-! ### Pipeline orchestrator (source lines 316-372) -/

/-- `XY2CorrectedRADec` (source lines 316-372): corrector, projector and
converter in sequence, then first/last extraction (`RA_data[0]`,
`RA_data[-1]`, ... — an index error, modelled by `none`, when the track is
empty) and the magnitude computation.  The track is the list of
`(time, X, Y, level)` records; the result bundles the `(JD, RA, dec)`
triples with the magnitudes. -/
def XY2CorrectedRADec (date2JD : TimeTuple → ℝ → ℝ)
    (UT_corr lat lon Ho : ℝ) (X_res Y_res : ℤ)
    (RA_d dec_d rot_param F_scale w_pix mag_0 mag_lev : ℝ)
    (x_poly y_poly : List ℝ) (data : List (TimeTuple × ℝ × ℝ × ℝ)) :
    Option (List (ℝ × ℝ × ℝ) × List ℝ) :=
  let corrected := applyFieldCorrection x_poly y_poly X_res Y_res F_scale
    (data.map (fun q => q.2))
  let azalt := XY2altAz lat lon RA_d dec_d Ho rot_param
    (corrected.map (fun c => (c.1, c.2.1)))
  let jrd := altAz2RADec date2JD lat lon UT_corr
    (data.map (fun q => q.1)) azalt
  if hj : jrd = [] then none
  else
    let hd := jrd.head hj
    let lastp := jrd.getLast hj
    let duration := (lastp.1 - hd.1) * 86400
    some (jrd, calculateMagnitudes (corrected.map (fun c => c.2.2))
      hd.2.1 lastp.2.1 hd.2.2 lastp.2.2 duration mag_0 mag_lev w_pix)

/-- The orchestrator contract as the specification words it: strictly
sequence corrector, projector and converter, take `ra_begin`, `ra_end`,
`dec_begin`, `dec_end` from the first and last converted point,
`duration = (JD_last - JD_first) * 86400`, then invoke the magnitude
estimator. -/
def pipelineSpec (date2JD : TimeTuple → ℝ → ℝ)
    (UT_corr lat lon Ho : ℝ) (X_res Y_res : ℤ)
    (RA_d dec_d rot_param F_scale w_pix mag_0 mag_lev : ℝ)
    (x_poly y_poly : List ℝ) (data : List (TimeTuple × ℝ × ℝ × ℝ)) :
    List (ℝ × ℝ × ℝ) × List ℝ :=
  let corrected := applyFieldCorrection x_poly y_poly X_res Y_res F_scale
    (data.map (fun q => q.2))
  let skypoints := XY2altAz lat lon RA_d dec_d Ho rot_param
    (corrected.map (fun c => (c.1, c.2.1)))
  let eqpoints := altAz2RADec date2JD lat lon UT_corr
    (data.map (fun q => q.1)) skypoints
  let firstp := eqpoints.headD (0, 0, 0)
  let lastp := eqpoints.getLastD (0, 0, 0)
  let duration := (lastp.1 - firstp.1) * 86400
  (eqpoints, calculateMagnitudes (corrected.map (fun c => c.2.2))
    firstp.2.1 lastp.2.1 firstp.2.2 lastp.2.2 duration mag_0 mag_lev w_pix)

/-- The per-level magnitude law as the specification words it, as a
function of the precomputed angular velocity. -/
def magnitudeSpec (mag_0 mag_lev w_pix angular_v level : ℝ) : ℝ :=
  (if Real.logb 10 level ≤ 3.2 then mag_0 * Real.logb 10 level + mag_lev
   else -20 * Real.logb 10 level + 64.5) -
  (if w_pix < angular_v then 2.5 * Real.logb 10 (angular_v / w_pix) else 0)

/-- The angular velocity as the specification words it: the spherical
law-of-cosines length between the begin and end points over the duration. -/
def angularVelocitySpec (ra_beg ra_end dec_beg dec_end duration : ℝ) : ℝ :=
  degrees (Real.arccos (Real.sin (radians dec_beg) * Real.sin (radians dec_end) +
    Real.cos (radians dec_beg) * Real.cos (radians dec_end) *
      Real.cos (radians ra_beg - radians ra_end))) / duration

end

/-! ### Lemmas about the point-pairing scan -/

section PairingLemmas

variable {α : Type} [LinearOrderedField α]

lemma minDiffFrom_cons (t1 : α) (p : Pt α) (l : List (Pt α)) (d : α) :
    minDiffFrom t1 (p :: l) d = minDiffFrom t1 l (min d |t1 - p.1|) := rfl

lemma minDiffFrom_min (t1 : α) (l : List (Pt α)) (a b : α) :
    minDiffFrom t1 l (min a b) = min a (minDiffFrom t1 l b) := by
  induction l generalizing a b with
  | nil => rfl
  | cons p rest ih =>
    rw [minDiffFrom_cons, minDiffFrom_cons, min_assoc, ih]

lemma minDiffFrom_le_init (t1 : α) (l : List (Pt α)) (d : α) :
    minDiffFrom t1 l d ≤ d := by
  induction l generalizing d with
  | nil => exact le_refl d
  | cons p rest ih =>
    rw [minDiffFrom_cons]
    exact le_trans (ih _) (min_le_left _ _)

lemma minDiffFrom_nonneg (t1 : α) (l : List (Pt α)) {d : α} (hd : 0 ≤ d) :
    0 ≤ minDiffFrom t1 l d := by
  induction l generalizing d with
  | nil => exact hd
  | cons p rest ih =>
    rw [minDiffFrom_cons]
    exact ih (le_min hd (abs_nonneg _))

lemma minDiffFrom_eq_min (t1 : α) {l : List (Pt α)} (h : l ≠ []) (d : α) :
    minDiffFrom t1 l d = min d (minTimeDiff t1 l) := by
  cases l with
  | nil => exact absurd rfl h
  | cons p rest =>
    simp only [minTimeDiff]
    rw [minDiffFrom_cons]
    exact minDiffFrom_min t1 rest d _

lemma minTimeDiff_le_mem (t1 : α) {l : List (Pt α)} {b : Pt α} (hb : b ∈ l) :
    minTimeDiff t1 l ≤ |t1 - b.1| := by
  induction l with
  | nil => cases hb
  | cons p rest ih =>
    simp only [minTimeDiff]
    rcases List.mem_cons.mp hb with hbp | hbr
    · subst hbp
      exact minDiffFrom_le_init _ _ _
    · have hne : rest ≠ [] := List.ne_nil_of_mem hbr
      rw [minDiffFrom_eq_min t1 hne]
      exact le_trans (min_le_right _ _) (ih hbr)

lemma minTimeDiff_nonneg (t1 : α) {l : List (Pt α)} (h : l ≠ []) :
    0 ≤ minTimeDiff t1 l := by
  cases l with
  | nil => exact absurd rfl h
  | cons p rest =>
    simp only [minTimeDiff]
    exact minDiffFrom_nonneg t1 rest (abs_nonneg _)

lemma scanMinAux_snd (t1 : α) (l : List (Pt α)) (k mi : ℕ) (md : α) :
    (scanMinAux t1 l k (mi, md)).2 = minDiffFrom t1 l md := by
  induction l generalizing k mi md with
  | nil => rfl
  | cons p rest ih =>
    rw [scanMinAux]
    by_cases h : |t1 - p.1| < md
    · rw [if_pos h, ih, minDiffFrom_cons, min_eq_right h.le]
    · rw [if_neg h, ih, minDiffFrom_cons, min_eq_left (not_lt.mp h)]

lemma scanMinAux_valid (t1 : α) (full : List (Pt α)) :
    ∀ (l : List (Pt α)) (k mi : ℕ) (md : α), l = full.drop k →
      (∃ b, full[mi]? = some b ∧ md = |t1 - b.1|) →
      ∃ b, full[(scanMinAux t1 l k (mi, md)).1]? = some b ∧
        (scanMinAux t1 l k (mi, md)).2 = |t1 - b.1| := by
  intro l
  induction l with
  | nil =>
    intro k mi md _ hst
    exact hst
  | cons p rest ih =>
    intro k mi md hl hst
    have hfk : full[k]? = some p := by
      have h0 : (full.drop k)[0]? = full[k + 0]? := List.getElem?_drop full k 0
      rw [← hl] at h0
      simpa using h0.symm
    have hrest : rest = full.drop (k + 1) := by
      have h1 : List.drop 1 (full.drop k) = full.drop (k + 1) :=
        List.drop_drop 1 k full
      rw [← hl] at h1
      simpa using h1
    rw [scanMinAux]
    by_cases h : |t1 - p.1| < md
    · rw [if_pos h]
      exact ih (k + 1) k _ hrest ⟨p, hfk, rfl⟩
    · rw [if_neg h]
      exact ih (k + 1) mi md hrest hst

lemma scanMinAux_fst (t1 : α) (l : List (Pt α)) :
    ∀ (k mi : ℕ) (md : α),
      (scanMinAux t1 l k (mi, md)).1 =
        if minDiffFrom t1 l md = md then mi
        else k + l.findIdx (fun p => decide (|t1 - p.1| = minDiffFrom t1 l md)) := by
  induction l with
  | nil =>
    intro k mi md
    simp [scanMinAux, minDiffFrom]
  | cons p rest ih =>
    intro k mi md
    rw [scanMinAux]
    by_cases h : |t1 - p.1| < md
    · rw [if_pos h]
      have hmin : min md |t1 - p.1| = |t1 - p.1| := min_eq_right h.le
      have hM : minDiffFrom t1 (p :: rest) md = minDiffFrom t1 rest |t1 - p.1| := by
        rw [minDiffFrom_cons, hmin]
      have hle : minDiffFrom t1 rest |t1 - p.1| ≤ |t1 - p.1| :=
        minDiffFrom_le_init _ _ _
      have hMne : ¬ minDiffFrom t1 (p :: rest) md = md := by
        rw [hM]
        intro hc
        rw [hc] at hle
        exact absurd hle (not_le.mpr h)
      rw [if_neg hMne, hM, ih]
      by_cases h2 : minDiffFrom t1 rest |t1 - p.1| = |t1 - p.1|
      · rw [if_pos h2, List.findIdx_cons]
        have hdec : decide (|t1 - p.1| = minDiffFrom t1 rest |t1 - p.1|) = true := by
          simp [h2]
        rw [hdec]
        simp
      · rw [if_neg h2, List.findIdx_cons]
        have hlt : minDiffFrom t1 rest |t1 - p.1| < |t1 - p.1| :=
          lt_of_le_of_ne hle h2
        have hdec : decide (|t1 - p.1| = minDiffFrom t1 rest |t1 - p.1|) = false := by
          simp
          exact ne_of_gt hlt
        rw [hdec]
        simp only [Bool.cond_false]
        omega
    · rw [if_neg h]
      have hmin : min md |t1 - p.1| = md := min_eq_left (not_lt.mp h)
      have hM : minDiffFrom t1 (p :: rest) md = minDiffFrom t1 rest md := by
        rw [minDiffFrom_cons, hmin]
      rw [hM, ih]
      by_cases h2 : minDiffFrom t1 rest md = md
      · rw [if_pos h2, if_pos h2]
      · rw [if_neg h2, if_neg h2, List.findIdx_cons]
        have hlt : minDiffFrom t1 rest md < md :=
          lt_of_le_of_ne (minDiffFrom_le_init _ _ _) h2
        have hdec : decide (|t1 - p.1| = minDiffFrom t1 rest md) = false := by
          simp
          exact ne_of_gt (lt_of_lt_of_le hlt (not_lt.mp h))
        rw [hdec]
        simp only [Bool.cond_false]
        omega

lemma scanMinAux_global (t1 : α) (pts2 : List (Pt α)) {mi : ℕ}
    (hmi : mi < pts2.length) :
    (scanMinAux t1 pts2 0 (mi, |t1 - pts2[mi].1|)).2 = minTimeDiff t1 pts2 := by
  have hne : pts2 ≠ [] := List.ne_nil_of_length_pos (Nat.lt_of_le_of_lt (Nat.zero_le _) hmi)
  rw [scanMinAux_snd, minDiffFrom_eq_min t1 hne]
  exact min_eq_right (minTimeDiff_le_mem t1 (List.getElem_mem hmi))

lemma findPairsAux_char (pts2 : List (Pt α)) (maxdt : α) :
    ∀ (pts1 : List (Pt α)) (mi : ℕ), mi < pts2.length →
      ∃ prs, findPairsAux pts2 maxdt pts1 mi = some prs ∧
        prs.map Prod.fst = pts1.filter (fun a => decide (minTimeDiff a.1 pts2 < maxdt)) ∧
        ∀ pr ∈ prs, |pr.1.1 - pr.2.1| = minTimeDiff pr.1.1 pts2 := by
  intro pts1
  induction pts1 with
  | nil =>
    intro mi _
    exact ⟨[], rfl, by simp, by simp⟩
  | cons a rest ih =>
    intro mi hmi
    have hseed : pts2[mi]? = some pts2[mi] := List.getElem?_eq_getElem hmi
    have hval : ∃ b, pts2[(scanMinAux a.1 pts2 0 (mi, |a.1 - pts2[mi].1|)).1]? = some b ∧
        (scanMinAux a.1 pts2 0 (mi, |a.1 - pts2[mi].1|)).2 = |a.1 - b.1| :=
      scanMinAux_valid a.1 pts2 pts2 0 mi _ (by simp) ⟨pts2[mi], hseed, rfl⟩
    obtain ⟨bm, hbm, hbd⟩ := hval
    have hresIdx : (scanMinAux a.1 pts2 0 (mi, |a.1 - pts2[mi].1|)).1 < pts2.length :=
      (List.getElem?_eq_some_iff.mp hbm).1
    have hvalue : (scanMinAux a.1 pts2 0 (mi, |a.1 - pts2[mi].1|)).2 = minTimeDiff a.1 pts2 :=
      scanMinAux_global a.1 pts2 hmi
    obtain ⟨prs, hprs, hmap, hdelta⟩ := ih _ hresIdx
    have hstep : findPairsAux pts2 maxdt (a :: rest) mi =
        (if (scanMinAux a.1 pts2 0 (mi, |a.1 - pts2[mi].1|)).2 < maxdt then
          match pts2[(scanMinAux a.1 pts2 0 (mi, |a.1 - pts2[mi].1|)).1]? with
          | none => none
          | some pmin =>
            (findPairsAux pts2 maxdt rest (scanMinAux a.1 pts2 0 (mi, |a.1 - pts2[mi].1|)).1).map
              (fun l => (a, pmin) :: l)
          else findPairsAux pts2 maxdt rest (scanMinAux a.1 pts2 0 (mi, |a.1 - pts2[mi].1|)).1) := by
      rw [findPairsAux, hseed]
    by_cases hcase : minTimeDiff a.1 pts2 < maxdt
    · refine ⟨(a, bm) :: prs, ?_, ?_, ?_⟩
      · rw [hstep, if_pos (by rw [hvalue]; exact hcase), hbm, hprs]
        rfl
      · rw [List.map_cons, hmap, List.filter_cons_of_pos (by simpa using hcase)]
      · intro pr hpr
        rcases List.mem_cons.mp hpr with hpr1 | hpr2
        · subst hpr1
          rw [← hbd, hvalue]
        · exact hdelta pr hpr2
    · refine ⟨prs, ?_, ?_, hdelta⟩
      · rw [hstep, if_neg (by rw [hvalue]; exact hcase)]
        exact hprs
      · rw [hmap, List.filter_cons_of_neg (by simpa using hcase)]

end PairingLemmas

/-! ### Claims about cross-station point pairing -/

/-- C6 (amended): for each station-A point with time `t1`, the scan of
`findPointTimePairs` over station B (seeded at the previous match index
`mi`) selects an index attaining the global minimum absolute time
difference, and the pairing is not constrained to be monotonic in B's
index; but when several B points attain that minimum the tie is not always
broken by smallest index: the seed index is kept whenever it already
attains the minimum, and only otherwise is the smallest index attaining
the minimum chosen. -/
theorem C6_selection_amended {α : Type} [LinearOrderedField α]
    (pts2 : List (Pt α)) (t1 : α) (mi : ℕ) (hmi : mi < pts2.length) :
    (scanMinAux t1 pts2 0 (mi, |t1 - pts2[mi].1|)).2 = minTimeDiff t1 pts2 ∧
    (∃ hb : (scanMinAux t1 pts2 0 (mi, |t1 - pts2[mi].1|)).1 < pts2.length,
      |t1 - (pts2.get ⟨(scanMinAux t1 pts2 0 (mi, |t1 - pts2[mi].1|)).1, hb⟩).1| =
        minTimeDiff t1 pts2) ∧
    (scanMinAux t1 pts2 0 (mi, |t1 - pts2[mi].1|)).1 =
      (if |t1 - pts2[mi].1| = minTimeDiff t1 pts2 then mi
       else pts2.findIdx (fun p => decide (|t1 - p.1| = minTimeDiff t1 pts2))) := by
  have hne : pts2 ≠ [] :=
    List.ne_nil_of_length_pos (Nat.lt_of_le_of_lt (Nat.zero_le _) hmi)
  have hglob0 := scanMinAux_global t1 pts2 hmi
  refine ⟨hglob0, ?_, ?_⟩
  · obtain ⟨b, hb, hd⟩ := scanMinAux_valid t1 pts2 pts2 0 mi _ (by simp)
      ⟨pts2[mi], List.getElem?_eq_getElem hmi, rfl⟩
    obtain ⟨hlt, hbe⟩ := List.getElem?_eq_some_iff.mp hb
    refine ⟨hlt, ?_⟩
    have hget : pts2.get ⟨(scanMinAux t1 pts2 0 (mi, |t1 - pts2[mi].1|)).1, hlt⟩ = b := hbe
    rw [hget, ← hd, hglob0]
  · have hglob : minDiffFrom t1 pts2 |t1 - pts2[mi].1| = minTimeDiff t1 pts2 := by
      rw [minDiffFrom_eq_min t1 hne]
      exact min_eq_right (minTimeDiff_le_mem t1 (List.getElem_mem hmi))
    rw [scanMinAux_fst t1 pts2 0 mi, hglob]
    by_cases hc : |t1 - pts2[mi].1| = minTimeDiff t1 pts2
    · rw [if_pos hc.symm, if_pos hc]
    · rw [if_neg (fun hcc => hc hcc.symm), if_neg hc, Nat.zero_add]

/-- C6 (counterexample): with station A times `[10, 5]` and station B
times `[0, 100, 10]` (threshold 6 days), the second A point (time 5) is
at distance 5 from both B index 0 and B index 2, yet the emitted pair
carries the B point with index 2 (the seed from the previous match), not
the smallest index 0 — refuting the claimed first-scan-order tie-break. -/
theorem C6_tie_break_counterexample :
    findPointTimePairs [((10 : ℚ), 1, 1, 1), (5, 2, 2, 2)]
        [((0 : ℚ), 0, 0, 0), (100, 9, 9, 9), (10, 3, 3, 3)] 518400 =
      some [(((10 : ℚ), 1, 1, 1), ((10 : ℚ), 3, 3, 3)),
        (((5 : ℚ), 2, 2, 2), ((10 : ℚ), 3, 3, 3))] ∧
    |(5 : ℚ) - 0| = |(5 : ℚ) - 10| ∧
    ((10 : ℚ), (3 : ℚ), (3 : ℚ), (3 : ℚ)) ≠ ((0 : ℚ), (0 : ℚ), (0 : ℚ), (0 : ℚ)) := by
  refine ⟨?_, by norm_num, by norm_num⟩
  norm_num [findPointTimePairs, findPairsAux, scanMinAux, abs]

/-- C10: when station A is nonempty and station B is empty, finding point
pairs fails by an out-of-range access to station B's points at the seed
index (modelled by `none`); a nonempty station-B sequence is a
precondition of the pairing. -/
theorem C10_empty_station2 {α : Type} [LinearOrderedField α]
    (pts1 : List (Pt α)) (max_dt : α) (hA : pts1 ≠ []) :
    findPointTimePairs pts1 ([] : List (Pt α)) max_dt = none := by
  obtain ⟨a, rest, rfl⟩ := List.exists_cons_of_ne_nil hA
  rfl

theorem C10_empty_station2_witness :
    findPointTimePairs [((0 : ℚ), 0, 0, 0)] ([] : List (Pt ℚ)) 1 = none :=
  C10_empty_station2 [((0 : ℚ), 0, 0, 0)] 1 (by simp)

theorem C6_selection_amended_witness :
    0 < ([((0 : ℚ), 0, 0, 0)] : List (Pt ℚ)).length ∧
      ((scanMinAux (0 : ℚ) [((0 : ℚ), 0, 0, 0)] 0
          (0, |(0 : ℚ) - (([((0 : ℚ), 0, 0, 0)] : List (Pt ℚ))[0]).1|)).2 =
        minTimeDiff (0 : ℚ) [((0 : ℚ), 0, 0, 0)] ∧
      (∃ hb : (scanMinAux (0 : ℚ) [((0 : ℚ), 0, 0, 0)] 0
          (0, |(0 : ℚ) - (([((0 : ℚ), 0, 0, 0)] : List (Pt ℚ))[0]).1|)).1 <
            ([((0 : ℚ), 0, 0, 0)] : List (Pt ℚ)).length,
        |(0 : ℚ) - (([((0 : ℚ), 0, 0, 0)] : List (Pt ℚ)).get
            ⟨(scanMinAux (0 : ℚ) [((0 : ℚ), 0, 0, 0)] 0
              (0, |(0 : ℚ) - (([((0 : ℚ), 0, 0, 0)] : List (Pt ℚ))[0]).1|)).1, hb⟩).1| =
          minTimeDiff (0 : ℚ) [((0 : ℚ), 0, 0, 0)]) ∧
      (scanMinAux (0 : ℚ) [((0 : ℚ), 0, 0, 0)] 0
          (0, |(0 : ℚ) - (([((0 : ℚ), 0, 0, 0)] : List (Pt ℚ))[0]).1|)).1 =
        (if |(0 : ℚ) - (([((0 : ℚ), 0, 0, 0)] : List (Pt ℚ))[0]).1| =
            minTimeDiff (0 : ℚ) [((0 : ℚ), 0, 0, 0)] then 0
         else ([((0 : ℚ), 0, 0, 0)] : List (Pt ℚ)).findIdx
            (fun p => decide (|(0 : ℚ) - p.1| = minTimeDiff (0 : ℚ) [((0 : ℚ), 0, 0, 0)])))) :=
  ⟨by decide, C6_selection_amended [((0 : ℚ), 0, 0, 0)] 0 0 (by decide)⟩

/-- C7: pairing emits a pair for an A point exactly when its global
minimum absolute time difference to station B is strictly below
`max_dt/86400` (the threshold converted from seconds to julian-date
units); unmatched A points are skipped silently (the run still returns a
result), the emitted pairs follow A's order, each pair attains the
minimum difference, and when every A point has an exact-time twin in B
(with a positive threshold) there is exactly one pair per A point, in A's
original order, each with zero time delta. -/
theorem C7_pairing_threshold {α : Type} [LinearOrderedField α]
    (pts1 pts2 : List (Pt α)) (max_dt : α) (hB : pts2 ≠ []) :
    ∃ prs, findPointTimePairs pts1 pts2 max_dt = some prs ∧
      prs.map Prod.fst =
        pts1.filter (fun a => decide (minTimeDiff a.1 pts2 < max_dt / 86400)) ∧
      (∀ pr ∈ prs, |pr.1.1 - pr.2.1| = minTimeDiff pr.1.1 pts2) ∧
      ((∀ a ∈ pts1, ∃ b ∈ pts2, b.1 = a.1) → 0 < max_dt →
        prs.map Prod.fst = pts1 ∧ ∀ pr ∈ prs, pr.2.1 = pr.1.1) := by
  have hdt : max_dt / 60 / 60 / 24 = max_dt / 86400 := by
    rw [div_div, div_div]
    norm_num
  obtain ⟨prs, h1, h2, h3⟩ :=
    findPairsAux_char pts2 (max_dt / 60 / 60 / 24) pts1 0 (List.length_pos.mpr hB)
  rw [hdt] at h2
  refine ⟨prs, h1, h2, h3, ?_⟩
  intro htwin hpos
  have hzero : ∀ a : Pt α, a ∈ pts1 → minTimeDiff a.1 pts2 = 0 := by
    intro a ha
    obtain ⟨b, hb, hbt⟩ := htwin a ha
    have hle := minTimeDiff_le_mem a.1 hb
    rw [hbt, sub_self, abs_zero] at hle
    exact le_antisymm hle (minTimeDiff_nonneg a.1 hB)
  have hthr : (0 : α) < max_dt / 86400 := div_pos hpos (by norm_num)
  have hall : ∀ a : Pt α, a ∈ pts1 →
      decide (minTimeDiff a.1 pts2 < max_dt / 86400) = true := by
    intro a ha
    rw [hzero a ha]
    simpa using hthr
  constructor
  · rw [h2]
    exact List.filter_eq_self.mpr hall
  · intro pr hpr
    have hmem : pr.1 ∈ pts1 := by
      have hmm : pr.1 ∈ prs.map Prod.fst := List.mem_map_of_mem _ hpr
      rw [h2] at hmm
      exact List.mem_of_mem_filter hmm
    have hd := h3 pr hpr
    rw [hzero pr.1 hmem, abs_eq_zero, sub_eq_zero] at hd
    exact hd.symm

theorem C7_pairing_threshold_witness :
    ([((0 : ℚ), 1, 2, 3)] : List (Pt ℚ)) ≠ [] ∧
      ∃ prs, findPointTimePairs [((0 : ℚ), 5, 6, 7)] [((0 : ℚ), 1, 2, 3)] 1 = some prs ∧
        prs.map Prod.fst =
          ([((0 : ℚ), 5, 6, 7)] : List (Pt ℚ)).filter
            (fun a => decide (minTimeDiff a.1 [((0 : ℚ), 1, 2, 3)] < 1 / 86400)) ∧
        (∀ pr ∈ prs, |pr.1.1 - pr.2.1| = minTimeDiff pr.1.1 [((0 : ℚ), 1, 2, 3)]) ∧
        ((∀ a ∈ ([((0 : ℚ), 5, 6, 7)] : List (Pt ℚ)),
            ∃ b ∈ ([((0 : ℚ), 1, 2, 3)] : List (Pt ℚ)), b.1 = a.1) → (0 : ℚ) < 1 →
          prs.map Prod.fst = [((0 : ℚ), 5, 6, 7)] ∧ ∀ pr ∈ prs, pr.2.1 = pr.1.1) :=
  ⟨by simp, C7_pairing_threshold [((0 : ℚ), 5, 6, 7)] [((0 : ℚ), 1, 2, 3)] 1 (by simp)⟩

/-! ### Lemmas for the numeric pipeline -/

lemma pymod_mem_Ico (x : ℝ) {m : ℝ} (hm : 0 < m) : pymod x m ∈ Set.Ico 0 m := by
  have hx : m * (x / m) = x := by field_simp
  constructor
  · have h1 : (⌊x / m⌋ : ℝ) ≤ x / m := Int.floor_le _
    have h2 : m * (⌊x / m⌋ : ℝ) ≤ m * (x / m) := by
      exact mul_le_mul_of_nonneg_left h1 hm.le
    rw [hx] at h2
    simp only [pymod]
    linarith
  · have h1 : x / m < ⌊x / m⌋ + 1 := Int.lt_floor_add_one _
    have h2 : m * (x / m) < m * ((⌊x / m⌋ : ℝ) + 1) := by
      exact mul_lt_mul_of_pos_left h1 hm
    rw [hx] at h2
    simp only [pymod]
    nlinarith

lemma degrees_arcsin_mem (v : ℝ) : degrees (Real.arcsin v) ∈ Set.Icc (-90 : ℝ) 90 := by
  obtain ⟨h1, h2⟩ := Real.arcsin_mem_Icc v
  have hpi := Real.pi_pos
  simp only [degrees, Set.mem_Icc]
  constructor
  · rw [le_div_iff₀ hpi]
    nlinarith
  · rw [div_le_iff₀ hpi]
    nlinarith

lemma sqrt_73728_gt : (120 : ℝ) < Real.sqrt 73728 :=
  (Real.lt_sqrt (by norm_num)).mpr (by norm_num)

lemma applyFieldCorrection_center_eval :
    applyFieldCorrection [0, 0, 0, 0, 0, 0, 0, 0, 0, 0, 0, 0]
        [0, 0, 0, 0, 0, 0, 0, 0, 0, 0, 0, 0] 720 576 1 [(360, 288, 100)] =
      [(0, 0, 100 * (1 + 0.00245 * (Real.sqrt 73728 - 120)))] := by
  have hfd1 : (((720 : ℤ).fdiv 2 : ℤ) : ℝ) = 360 := by
    rw [show (720 : ℤ).fdiv 2 = 360 from by decide]
    norm_num
  have hfd2 : (((576 : ℤ).fdiv 2 : ℤ) : ℝ) = 288 := by
    rw [show (576 : ℤ).fdiv 2 = 288 from by decide]
    norm_num
  have hgt := sqrt_73728_gt
  simp only [applyFieldCorrection, List.map_cons, List.map_nil, correctPoint,
    vignettingCorrection, hfd1, hfd2]
  norm_num [hgt]

/-! ### Claims about the corrector -/

/-- C1 (counterexample): for the all-zero 12-coefficient calibration with
`X_res = 720`, `Y_res = 576`, `F_scale = 1` and the single centre point
`(360, 288, 100)`, the corrector does NOT return `(0, 0, 100)`: the
vignetting radius in the CIF frame is `√73728 = 192√2 > 120` (the source
measures it about `(192, 192)` in coordinates already centred on the
image), so the level is scaled. -/
theorem C1_center_point_counterexample :
    applyFieldCorrection [0, 0, 0, 0, 0, 0, 0, 0, 0, 0, 0, 0]
        [0, 0, 0, 0, 0, 0, 0, 0, 0, 0, 0, 0] 720 576 1 [(360, 288, 100)] ≠
      [((0 : ℝ), 0, 100)] := by
  rw [applyFieldCorrection_center_eval]
  have hgt := sqrt_73728_gt
  intro hc
  simp only [List.cons.injEq, Prod.mk.injEq, and_true, true_and] at hc
  nlinarith [hc]

/-- C1 (amended): for the all-zero 12-coefficient calibration with
`X_res = 720`, `Y_res = 576`, `F_scale = 1`, the corrector maps the centre
point `(360, 288, 100)` to `x_corr = 0`, `y_corr = 0`, and
`level_corr = 100*(1 + 0.00245*(√73728 - 120))`: vignetting IS applied,
because the source's vignetting radius at the image centre is
`√73728 = 192√2`, not 0. -/
theorem C1_center_point_amended :
    applyFieldCorrection [0, 0, 0, 0, 0, 0, 0, 0, 0, 0, 0, 0]
        [0, 0, 0, 0, 0, 0, 0, 0, 0, 0, 0, 0] 720 576 1 [(360, 288, 100)] =
      [(0, 0, 100 * (1 + 0.00245 * (Real.sqrt 73728 - 120)))] :=
  applyFieldCorrection_center_eval

/-- C9 (counterexample): at level 0 the corrected level is NOT strictly
increasing in the vignetting radius: the two points `(313, 192)` and
`(322, 192)` have radii `121 < 130`, both beyond 120, yet both corrected
levels are 0. -/
theorem C9_zero_level_counterexample :
    vignettingCorrection 313 192 0 = 0 ∧ vignettingCorrection 322 192 0 = 0 ∧
    120 < Real.sqrt (((313 : ℝ) - 192) ^ 2 + ((192 : ℝ) - 192) ^ 2) ∧
    Real.sqrt (((313 : ℝ) - 192) ^ 2 + ((192 : ℝ) - 192) ^ 2) <
      Real.sqrt (((322 : ℝ) - 192) ^ 2 + ((192 : ℝ) - 192) ^ 2) := by
  have e1 : Real.sqrt (((313 : ℝ) - 192) ^ 2 + ((192 : ℝ) - 192) ^ 2) = 121 := by
    rw [show ((313 : ℝ) - 192) ^ 2 + ((192 : ℝ) - 192) ^ 2 = 121 ^ 2 from by norm_num]
    exact Real.sqrt_sq (by norm_num)
  have e2 : Real.sqrt (((322 : ℝ) - 192) ^ 2 + ((192 : ℝ) - 192) ^ 2) = 130 := by
    rw [show ((322 : ℝ) - 192) ^ 2 + ((192 : ℝ) - 192) ^ 2 = 130 ^ 2 from by norm_num]
    exact Real.sqrt_sq (by norm_num)
  refine ⟨?_, ?_, ?_, ?_⟩
  · simp [vignettingCorrection]
  · simp [vignettingCorrection]
  · rw [e1]; norm_num
  · rw [e1, e2]; norm_num

/-- C9 (amended): for every fixed POSITIVE level, once the vignetting
radius exceeds 120 the corrected level is strictly increasing in the
radius. -/
theorem C9_vignetting_monotonic_amended (x1 y1 x2 y2 level : ℝ)
    (hl : 0 < level)
    (h1 : 120 < Real.sqrt ((x1 - 192) ^ 2 + (y1 - 192) ^ 2))
    (h12 : Real.sqrt ((x1 - 192) ^ 2 + (y1 - 192) ^ 2) <
      Real.sqrt ((x2 - 192) ^ 2 + (y2 - 192) ^ 2)) :
    vignettingCorrection x1 y1 level < vignettingCorrection x2 y2 level := by
  have h2 : 120 < Real.sqrt ((x2 - 192) ^ 2 + (y2 - 192) ^ 2) := lt_trans h1 h12
  unfold vignettingCorrection
  rw [if_pos h1, if_pos h2]
  nlinarith

theorem C9_vignetting_monotonic_witness :
    (0 : ℝ) < 1 ∧ vignettingCorrection 313 192 1 < vignettingCorrection 322 192 1 := by
  have e1 : Real.sqrt (((313 : ℝ) - 192) ^ 2 + ((192 : ℝ) - 192) ^ 2) = 121 := by
    rw [show ((313 : ℝ) - 192) ^ 2 + ((192 : ℝ) - 192) ^ 2 = 121 ^ 2 from by norm_num]
    exact Real.sqrt_sq (by norm_num)
  have e2 : Real.sqrt (((322 : ℝ) - 192) ^ 2 + ((192 : ℝ) - 192) ^ 2) = 130 := by
    rw [show ((322 : ℝ) - 192) ^ 2 + ((192 : ℝ) - 192) ^ 2 = 130 ^ 2 from by norm_num]
    exact Real.sqrt_sq (by norm_num)
  exact ⟨by norm_num,
    C9_vignetting_monotonic_amended 313 192 322 192 1 (by norm_num)
      (by rw [e1]; norm_num) (by rw [e1, e2]; norm_num)⟩

/-- C8: the pipeline performs no configuration validation at all: with
13-coefficient polynomials (length ≠ 12) and a negative `F_scale`, the
corrector still performs the per-point computation and returns numeric
values, and the full orchestrator still returns a result — nothing fails
fast before the stages run. -/
theorem C8_no_fail_fast_validation :
    applyFieldCorrection [0, 0, 0, 0, 0, 0, 0, 0, 0, 0, 0, 0, 0]
        [0, 0, 0, 0, 0, 0, 0, 0, 0, 0, 0, 0, 0] 720 576 (-1) [(360, 288, 50)] =
      [(0, 0, 50 * (1 + 0.00245 * (Real.sqrt 73728 - 120)))] ∧
    (XY2CorrectedRADec (fun _ _ => 0) 0 0 0 0 720 576 0 0 0 (-1) 0 0 0
        [0, 0, 0, 0, 0, 0, 0, 0, 0, 0, 0, 0, 0]
        [0, 0, 0, 0, 0, 0, 0, 0, 0, 0, 0, 0, 0]
        [(⟨0, 0, 0, 0, 0, 0, 0⟩, 360, 288, 50)]).isSome = true := by
  have hfd1 : (((720 : ℤ).fdiv 2 : ℤ) : ℝ) = 360 := by
    rw [show (720 : ℤ).fdiv 2 = 360 from by decide]
    norm_num
  have hfd2 : (((576 : ℤ).fdiv 2 : ℤ) : ℝ) = 288 := by
    rw [show (576 : ℤ).fdiv 2 = 288 from by decide]
    norm_num
  have hgt := sqrt_73728_gt
  constructor
  · simp only [applyFieldCorrection, List.map_cons, List.map_nil, correctPoint,
      vignettingCorrection, hfd1, hfd2]
    norm_num [hgt]
  · simp [XY2CorrectedRADec, altAz2RADec, XY2altAz, applyFieldCorrection]

/-! ### Claims about the projector, converter and magnitude estimator -/

/-- C3: for every calibration and input sequence, every azimuth produced
by the sky projector lies in `[0, 360)`, and every right ascension and
declination produced by the equatorial converter lie in `[0, 360)` and
`[-90, 90]` respectively. -/
theorem C3_angle_normalization (date2JD : TimeTuple → ℝ → ℝ)
    (lat lon RA_d dec_d Ho rot_param UT_corr : ℝ)
    (pts : List (ℝ × ℝ)) (time_data : List TimeTuple) (azalt : List (ℝ × ℝ)) :
    (∀ q ∈ XY2altAz lat lon RA_d dec_d Ho rot_param pts,
      q.1 ∈ Set.Ico (0 : ℝ) 360) ∧
    (∀ q ∈ altAz2RADec date2JD lat lon UT_corr time_data azalt,
      q.2.1 ∈ Set.Ico (0 : ℝ) 360 ∧ q.2.2 ∈ Set.Icc (-90 : ℝ) 90) := by
  constructor
  · intro q hq
    simp only [XY2altAz, List.mem_map] at hq
    obtain ⟨p, _, rfl⟩ := hq
    exact pymod_mem_Ico _ (by norm_num)
  · intro q hq
    simp only [altAz2RADec, List.mem_map] at hq
    obtain ⟨p, _, rfl⟩ := hq
    exact ⟨pymod_mem_Ico _ (by norm_num), degrees_arcsin_mem _⟩

theorem C3_angle_normalization_witness :
    (xy2altAzPoint 0 0 0 0 0 0 (0, 0)).1 ∈ Set.Ico (0 : ℝ) 360 ∧
    ((altAz2RADecPoint (fun _ _ => 0) 0 0 0 (⟨0, 0, 0, 0, 0, 0, 0⟩, 0, 0)).2.1 ∈
        Set.Ico (0 : ℝ) 360 ∧
      (altAz2RADecPoint (fun _ _ => 0) 0 0 0 (⟨0, 0, 0, 0, 0, 0, 0⟩, 0, 0)).2.2 ∈
        Set.Icc (-90 : ℝ) 90) :=
  ⟨(C3_angle_normalization (fun _ _ => 0) 0 0 0 0 0 0 0 [(0, 0)]
      [⟨0, 0, 0, 0, 0, 0, 0⟩] [(0, 0)]).1 _ (by simp [XY2altAz]),
    (C3_angle_normalization (fun _ _ => 0) 0 0 0 0 0 0 0 [(0, 0)]
      [⟨0, 0, 0, 0, 0, 0, 0⟩] [(0, 0)]).2 _ (by simp [altAz2RADec])⟩

/-- C5: for inputs with all levels positive, the magnitude estimator is
exactly the specification's formula: track length by the spherical law of
cosines between the begin and end points, `angular_velocity =
length/duration`, per level `mag_0*log10(level) + mag_lev` when
`log10(level) ≤ 3.2` and `-20*log10(level) + 64.5` otherwise, with
`2.5*log10(angular_velocity/w_pix)` subtracted exactly when
`angular_velocity > w_pix`. -/
theorem C5_magnitude_formula (levels : List ℝ)
    (ra_beg ra_end dec_beg dec_end duration mag_0 mag_lev w_pix : ℝ)
    (_hpos : ∀ l ∈ levels, 0 < l) :
    calculateMagnitudes levels ra_beg ra_end dec_beg dec_end duration
        mag_0 mag_lev w_pix =
      levels.map (fun level => magnitudeSpec mag_0 mag_lev w_pix
        (angularVelocitySpec ra_beg ra_end dec_beg dec_end duration) level) := by
  simp only [calculateMagnitudes, magnitudeSpec, angularVelocitySpec]
  refine List.map_congr_left ?_
  intro l _
  by_cases h : w_pix <
      degrees (Real.arccos (Real.sin (radians dec_beg) * Real.sin (radians dec_end) +
        Real.cos (radians dec_beg) * Real.cos (radians dec_end) *
          Real.cos (radians ra_beg - radians ra_end))) / duration
  · simp [h]
  · simp [h]

theorem C5_magnitude_formula_witness :
    (∀ l ∈ ([1] : List ℝ), 0 < l) ∧
      calculateMagnitudes [1] 0 0 0 0 1 0 0 1 =
        ([1] : List ℝ).map (fun level => magnitudeSpec 0 0 1
          (angularVelocitySpec 0 0 0 0 1) level) :=
  ⟨by norm_num, C5_magnitude_formula [1] 0 0 0 0 1 0 0 1 (by norm_num)⟩

/-! ### Claims about the orchestrator -/

lemma headD_eq_head {β : Type} {l : List β} (h : l ≠ []) (d : β) :
    l.headD d = l.head h := by
  cases l with
  | nil => exact absurd rfl h
  | cons a t => rfl

lemma getLastD_eq_getLast {β : Type} {l : List β} (h : l ≠ []) (d : β) :
    l.getLastD d = l.getLast h := by
  rw [List.getLastD_eq_getLast?, List.getLast?_eq_getLast_of_ne_nil h]
  rfl

/-- C2: the orchestrator contains no degenerate-track guard: on a
single-point track (duration exactly zero) it does not fail with a
precondition error but runs to completion, feeding `duration = 0` (and
hence a division by zero in the angular velocity) into the magnitude
computation. -/
theorem C2_single_point_track_not_guarded (date2JD : TimeTuple → ℝ → ℝ)
    (UT_corr lat lon Ho : ℝ) (X_res Y_res : ℤ)
    (RA_d dec_d rot_param F_scale w_pix mag_0 mag_lev : ℝ)
    (x_poly y_poly : List ℝ) (p : TimeTuple × ℝ × ℝ × ℝ) :
    ∃ jd ra dec lvl, XY2CorrectedRADec date2JD UT_corr lat lon Ho X_res Y_res
        RA_d dec_d rot_param F_scale w_pix mag_0 mag_lev x_poly y_poly [p] =
      some ([(jd, ra, dec)],
        calculateMagnitudes [lvl] ra ra dec dec 0 mag_0 mag_lev w_pix) := by
  classical
  set c := correctPoint x_poly y_poly X_res Y_res F_scale p.2 with hc
  set s := xy2altAzPoint lat lon RA_d dec_d Ho rot_param (c.1, c.2.1) with hs
  set e := altAz2RADecPoint date2JD lat lon UT_corr (p.1, s) with he
  refine ⟨e.1, e.2.1, e.2.2, c.2.2, ?_⟩
  simp only [XY2CorrectedRADec, applyFieldCorrection, XY2altAz, altAz2RADec,
    List.map_cons, List.map_nil, List.zip_cons_cons, List.zip_nil_right,
    ← hc, ← hs, ← he]
  rw [dif_neg (List.cons_ne_nil e [])]
  simp only [List.head_cons, List.getLast_singleton]
  rw [sub_self, zero_mul]

/-- C4: for every calibration and nonempty track, the orchestrator equals
the strict composition corrector → projector → converter, with the
magnitudes computed from the corrected levels using `ra_begin`, `ra_end`,
`dec_begin`, `dec_end` from the first and last converted points and
`duration = (JD_last - JD_first) * 86400` seconds. -/
theorem C4_orchestrator_composition (date2JD : TimeTuple → ℝ → ℝ)
    (UT_corr lat lon Ho : ℝ) (X_res Y_res : ℤ)
    (RA_d dec_d rot_param F_scale w_pix mag_0 mag_lev : ℝ)
    (x_poly y_poly : List ℝ) (data : List (TimeTuple × ℝ × ℝ × ℝ))
    (hdata : data ≠ []) :
    XY2CorrectedRADec date2JD UT_corr lat lon Ho X_res Y_res RA_d dec_d
        rot_param F_scale w_pix mag_0 mag_lev x_poly y_poly data =
      some (pipelineSpec date2JD UT_corr lat lon Ho X_res Y_res RA_d dec_d
        rot_param F_scale w_pix mag_0 mag_lev x_poly y_poly data) := by
  have hlen : (altAz2RADec date2JD lat lon UT_corr (data.map (fun q => q.1))
      (XY2altAz lat lon RA_d dec_d Ho rot_param
        ((applyFieldCorrection x_poly y_poly X_res Y_res F_scale
          (data.map (fun q => q.2))).map (fun c => (c.1, c.2.1))))).length =
      data.length := by
    simp [altAz2RADec, XY2altAz, applyFieldCorrection]
  have hne : altAz2RADec date2JD lat lon UT_corr (data.map (fun q => q.1))
      (XY2altAz lat lon RA_d dec_d Ho rot_param
        ((applyFieldCorrection x_poly y_poly X_res Y_res F_scale
          (data.map (fun q => q.2))).map (fun c => (c.1, c.2.1)))) ≠ [] := by
    apply List.ne_nil_of_length_pos
    rw [hlen]
    exact List.length_pos.mpr hdata
  simp only [XY2CorrectedRADec, pipelineSpec]
  rw [dif_neg hne, headD_eq_head hne, getLastD_eq_getLast hne]

theorem C4_orchestrator_composition_witness :
    ([((⟨0, 0, 0, 0, 0, 0, 0⟩ : TimeTuple), (0 : ℝ), 0, 0)] :
        List (TimeTuple × ℝ × ℝ × ℝ)) ≠ [] ∧
      XY2CorrectedRADec (fun _ _ => 0) 0 0 0 0 384 288 0 0 0 1 0 0 0 [] []
          [((⟨0, 0, 0, 0, 0, 0, 0⟩ : TimeTuple), (0 : ℝ), 0, 0)] =
        some (pipelineSpec (fun _ _ => 0) 0 0 0 0 384 288 0 0 0 1 0 0 0 [] []
          [((⟨0, 0, 0, 0, 0, 0, 0⟩ : TimeTuple), (0 : ℝ), 0, 0)]) :=
  ⟨by simp, C4_orchestrator_composition (fun _ _ => 0) 0 0 0 0 384 288 0 0 0 1
    0 0 0 [] [] [((⟨0, 0, 0, 0, 0, 0, 0⟩ : TimeTuple), (0 : ℝ), 0, 0)] (by simp)⟩
